import Mathlib

/-!
Verification development for the kintone image-compression batch pipeline.

The repository's TypeScript sources are shallowly embedded below:
* `compressor.ts` — `isImageFile`, `toJpegName`, `compressToBuffer`
  (the `sharp` image codec is an external capability, abstracted as an
  `ImageOps` record of possibly-failing operations, mirroring the awaited
  calls that can reject);
* `api-counter.ts` — `ApiCounter`;
* `kintone-client.ts` — the id-cursor paginator `getAllRecords`
  (the remote record store is external; its query semantics — filter by
  `$id > lastId`, ascending id order, page limit — is modelled by
  `queryPage` over an id-sorted in-memory store, per the store contract);
* `index.ts` (`runCompression`) and `delete-old-images.ts` — the two
  phases, with the network client abstracted as a `Client` oracle whose
  calls each bump the shared counter (the client increments right after
  each HTTP response, even a non-ok one).

Machine integers are modelled as `Nat`/`Int`; fallible calls return
`Except String`.  The `checkLog` and `issued` fields are ghost state
recording, respectively, the counter value at each passed per-record
capacity check and the attachment list handed to an update call; nothing
in the control flow depends on them.
-/

/-! ## File-name classification (`compressor.ts`) -/

/-- Line terminators that JavaScript's regex `.` does not match. -/
def isLineTerminator (c : Char) : Bool :=
  c = Char.ofNat 10 || c = Char.ofNat 13 || c = Char.ofNat 8232 || c = Char.ofNat 8233

/-- Split a character list at its last `'.'`: returns the part before the
last dot and the part after it, or `none` when no dot occurs. -/
def splitLastDot : List Char → Option (List Char × List Char)
  | [] => none
  | c :: cs =>
    match splitLastDot cs with
    | some (p, s) => some (c :: p, s)
    | none => if c = '.' then some ([], cs) else none

/-- Model of `fileName.replace(/^.*(\.[^.]+)$/, "$1")`: when the whole
string matches — i.e. there is a last dot, a nonempty dot-free suffix
after it, and the part matched by `.*` (everything before that dot)
contains no line terminator — the result is the captured `"." ++ suffix`;
otherwise the string is returned unchanged. -/
def jsExtractExt (s : String) : String :=
  match splitLastDot s.toList with
  | some (p, suf) =>
    if !suf.isEmpty && p.all (fun c => !(isLineTerminator c)) then
      String.mk ('.' :: suf)
    else s
  | none => s

/-- Model of `fileName.toLowerCase()`: lowercase every character (stated
on the character list so that it evaluates by kernel reduction). -/
def jsToLower (s : String) : String :=
  String.mk (s.toList.map Char.toLower)

/-- The `IMAGE_EXTENSIONS` allow-list of `compressor.ts`. -/
def IMAGE_EXTENSIONS : List String :=
  [".jpg", ".jpeg", ".png", ".heic", ".heif", ".webp", ".avif", ".tiff", ".tif"]

/-- `isImageFile` from `compressor.ts`: lowercase the name, extract the
extension with the regex above, and test membership in the allow-list. -/
def isImageFile (fileName : String) : Bool :=
  decide (jsExtractExt (jsToLower fileName) ∈ IMAGE_EXTENSIONS)

/-- Model of `toJpegName`: `fileName.replace(/\.[^.]+$/, ".jpg")` — replace
a final `"." ++ nonempty dot-free suffix` by `".jpg"`, else unchanged. -/
def toJpegName (fileName : String) : String :=
  match splitLastDot fileName.toList with
  | some (p, suf) => if !suf.isEmpty then String.mk (p ++ ('.' :: "jpg".toList)) else fileName
  | none => fileName

/-- The spec's notion of the final extension of a file name: the last dot
together with the nonempty dot-free suffix after it.  This definition
follows the spec's words ("the lowercased final extension of the file
name") and is compared against the source-derived `isImageFile`. -/
def specFinalExtension (s : String) : Option String :=
  match splitLastDot s.toList with
  | some (_, suf) => if suf.isEmpty then none else some (String.mk ('.' :: suf))
  | none => none

/-! ## Compression engine (`compressor.ts`) -/

/-- `QUALITY_STEPS` from `compressor.ts`. -/
def QUALITY_STEPS : List Nat := [80, 60, 40]

/-- `RESIZE_STEPS` from `compressor.ts`. -/
def RESIZE_STEPS : List Nat := [3000, 2000, 1500]

/-- The resize option passed to `sharp(...).resize`: constrain the width
or the height to the given dimension. -/
inductive ResizeOpt where
  | width (d : Nat)
  | height (d : Nat)
deriving DecidableEq, Repr

/-- Abstract interface to the `sharp` codec: byte length of a buffer,
re-encoding to JPEG at a quality, resize-then-encode, and metadata
(pixel width/height, each possibly absent).  Every codec call is awaited
in the source and can reject, hence `Except`. -/
structure ImageOps (Buf : Type) where
  len : Buf → Nat
  jpeg : Buf → Nat → Except String Buf
  resizeJpeg : Buf → ResizeOpt → Nat → Except String Buf
  metadata : Buf → Except String (Option Nat × Option Nat)

/-- `CompressResult` from `types.ts`. -/
structure CompressResult where
  originalSize : Nat
  compressedSize : Nat
  originalName : String
  newName : String
deriving DecidableEq, Repr

/-- `makeResult` from `compressor.ts`. -/
def makeResult {Buf : Type} (ops : ImageOps Buf) (data : Buf) (originalSize : Nat)
    (fileName : String) : Buf × CompressResult :=
  (data,
    { originalSize := originalSize
      compressedSize := ops.len data
      originalName := fileName
      newName := toJpegName fileName })

/-- Phase 1 of `compressToBuffer`: walk the quality ladder, skipping
qualities above `startQuality`; return the first encoding that fits
(`Sum.inl`), else the last candidate produced (`Sum.inr`). -/
def runQuality {Buf : Type} (ops : ImageOps Buf) (buffer : Buf)
    (maxSizeBytes startQuality : Nat) :
    List Nat → Option Buf → Except String (Buf ⊕ Option Buf)
  | [], last => .ok (.inr last)
  | q :: qs, last =>
    if startQuality < q then runQuality ops buffer maxSizeBytes startQuality qs last
    else
      match ops.jpeg buffer q with
      | .error e => .error e
      | .ok data =>
        if ops.len data ≤ maxSizeBytes then .ok (.inl data)
        else runQuality ops buffer maxSizeBytes startQuality qs (some data)

/-- Phase 2 of `compressToBuffer`: walk the resize ladder, skipping any
target dimension not smaller than the longest side; constrain width when
`width >= height`, else height; encode at the ladder's lowest quality. -/
def runResize {Buf : Type} (ops : ImageOps Buf) (buffer : Buf)
    (maxSizeBytes w h longestSide : Nat) :
    List Nat → Option Buf → Except String (Buf ⊕ Option Buf)
  | [], last => .ok (.inr last)
  | d :: ds, last =>
    if longestSide ≤ d then runResize ops buffer maxSizeBytes w h longestSide ds last
    else
      let opts := if h ≤ w then ResizeOpt.width d else ResizeOpt.height d
      match ops.resizeJpeg buffer opts (QUALITY_STEPS.getLastD 0) with
      | .error e => .error e
      | .ok data =>
        if ops.len data ≤ maxSizeBytes then .ok (.inl data)
        else runResize ops buffer maxSizeBytes w h longestSide ds (some data)

/-- `compressToBuffer` from `compressor.ts`.  Returns `.ok none` when the
input is under budget or not an image; otherwise phase 1, then phase 2
threading the last candidate, then the best-effort fallback. -/
def compressToBuffer {Buf : Type} (ops : ImageOps Buf) (buffer : Buf) (fileName : String)
    (maxSizeBytes startQuality : Nat) : Except String (Option (Buf × CompressResult)) :=
  let originalSize := ops.len buffer
  if originalSize ≤ maxSizeBytes ∨ isImageFile fileName = false then .ok none
  else
    match runQuality ops buffer maxSizeBytes startQuality QUALITY_STEPS none with
    | .error e => .error e
    | .ok (.inl data) => .ok (some (makeResult ops data originalSize fileName))
    | .ok (.inr last1) =>
      match ops.metadata buffer with
      | .error e => .error e
      | .ok md =>
        let w := md.1.getD 0
        let h := md.2.getD 0
        let longestSide := max w h
        match runResize ops buffer maxSizeBytes w h longestSide RESIZE_STEPS last1 with
        | .error e => .error e
        | .ok (.inl data) => .ok (some (makeResult ops data originalSize fileName))
        | .ok (.inr (some data)) => .ok (some (makeResult ops data originalSize fileName))
        | .ok (.inr none) => .ok none

/-! ## `ApiCounter` (`api-counter.ts`) -/

/-- `ApiCounter`: a call count against a fixed limit. -/
structure ApiCounter where
  count : Nat
  limit : Nat
deriving DecidableEq, Repr

/-- `increment()`. -/
def ApiCounter.increment (c : ApiCounter) : ApiCounter :=
  { c with count := c.count + 1 }

/-- The `current` getter. -/
def ApiCounter.current (c : ApiCounter) : Nat := c.count

/-- `hasCapacity(needed)`: `count + needed <= limit`. -/
def ApiCounter.hasCapacity (c : ApiCounter) (needed : Nat) : Bool :=
  decide (c.count + needed ≤ c.limit)

/-- The `remaining` getter: `Math.max(0, limit - count)` (on `Nat`,
truncated subtraction). -/
def ApiCounter.remaining (c : ApiCounter) : Nat := c.limit - c.count

/-! ## Record store data model (`types.ts`) and client oracle -/

/-- `KintoneFileInfo` (size parsed to an integer at the adapter boundary;
the source applies `Number(file.size)` at each use). -/
structure FileInfo where
  fileKey : String
  name : String
  size : Nat
deriving DecidableEq, Repr

/-- A record: its `$id` (numeric-monotonic, parsed to `Nat`) and its
attachment fields as an association list `fieldCode -> files`. -/
structure KRecord where
  id : Nat
  fields : List (String × List FileInfo)
deriving DecidableEq, Repr

/-- `KintoneClient.extractFiles`: the field's value, or `[]` when the
field is absent. -/
def extractFiles (r : KRecord) (fieldCode : String) : List FileInfo :=
  match r.fields.lookup fieldCode with
  | some fs => fs
  | none => []

/-- Oracle for the remote calls of `KintoneClient` other than queries:
file download by key, file upload (returning the new key), and record
field update.  Each may fail (a non-ok HTTP response, thrown as an
error by the client after incrementing the counter). -/
structure Client (Buf : Type) where
  download : String → Except String Buf
  upload : String → Buf → Except String String
  update : Nat → String → List String → Except String Unit

/-! ## Cursor pagination (`kintone-client.ts`, `getAllRecords`) -/

/-- The fixed page size (`limit = 500`). -/
def PAGE_LIMIT : Nat := 500

/-- The query string built for each page:
`$id > "lastId" [and (userQuery)] order by $id asc limit 500`. -/
def fullQuery (userQuery : String) (lastId : Nat) : String :=
  let idCondition := "$id > \"" ++ toString lastId ++ "\""
  if userQuery = "" then
    idCondition ++ " order by $id asc limit " ++ toString PAGE_LIMIT
  else
    idCondition ++ " and (" ++ userQuery ++ ") order by $id asc limit " ++ toString PAGE_LIMIT

/-- `fieldsWithId`: prepend `$id` to the requested fields unless present. -/
def fieldsWithId (fields : List String) : List String :=
  if fields.contains "$id" then fields else "$id" :: fields

/-- The record store's answer to one paginated query, modelled from the
store contract: among the records matching `lastId < id` and the user
filter, the first `PAGE_LIMIT` in the store's (ascending-id) order. -/
def queryPage (store : List KRecord) (p : KRecord → Bool) (lastId : Nat) : List KRecord :=
  (store.filter fun r => decide (lastId < r.id) && p r).take PAGE_LIMIT

/-- Output of the paginator: the accumulated records, the issued query
strings, and the counter (each `fetchRecords` call increments it). -/
structure FetchOut where
  records : List KRecord
  queries : List String
  counter : ApiCounter
deriving Repr

/-- The `while (true)` pagination loop of `getAllRecords`, with fuel:
fetch a page (one counter increment), append it, stop when the page is
short, else advance the cursor to the last record's id. -/
def getAllRecordsAux (store : List KRecord) (p : KRecord → Bool) (userQuery : String) :
    Nat → Nat → ApiCounter → FetchOut
  | 0, _, counter => ⟨[], [], counter⟩
  | fuel + 1, lastId, counter =>
    let q := fullQuery userQuery lastId
    let page := queryPage store p lastId
    let counter1 := counter.increment
    if page.length < PAGE_LIMIT then ⟨page, [q], counter1⟩
    else
      let out := getAllRecordsAux store p userQuery fuel (page.getLastD ⟨0, []⟩).id counter1
      ⟨page ++ out.records, q :: out.queries, out.counter⟩

/-- `getAllRecords(query, fields)`: cursor starts at `"0"`.  `p` is the
store-side meaning of `userQuery`; `fields` is threaded for fidelity but
the store model returns whole records.  `store.length + 1` pages of fuel
always suffice. -/
def getAllRecords (store : List KRecord) (p : KRecord → Bool) (userQuery : String)
    (fields : List String) (counter : ApiCounter) : FetchOut :=
  let _ := fieldsWithId fields
  getAllRecordsAux store p userQuery (store.length + 1) 0 counter

/-! ## Compression pass (`index.ts`, `runCompression`) -/

/-- `ProcessResult` from `types.ts`. -/
structure ProcessResult where
  recordId : Nat
  files : List CompressResult
  skipped : Nat
  errors : List String
deriving DecidableEq, Repr

/-- Outcome of handling one attachment in the per-file loop: how many
client calls were issued, the key pushed onto `updatedFileKeys`, the
compression outcome pushed onto `result.files` (when any), the error
pushed onto `result.errors` (when any), the increment of
`result.skipped`, and whether the file was actually compressed. -/
structure FileStep where
  calls : Nat
  key : String
  compResult : Option CompressResult
  error : Option String
  skippedInc : Nat
  modified : Bool
deriving Repr

/-- The body of the per-file loop of `runCompression`: pass through
non-images and small files; otherwise download (1 call), compress, and
— when a result was produced — upload (1 call); any failure keeps the
original key and records `fieldCode/name: msg`. -/
def processFile {Buf : Type} (ops : ImageOps Buf) (cl : Client Buf)
    (maxSizeBytes targetQuality : Nat) (fieldCode : String) (file : FileInfo) : FileStep :=
  if !(isImageFile file.name) || decide (file.size ≤ maxSizeBytes) then
    ⟨0, file.fileKey, none, none, 1, false⟩
  else
    match cl.download file.fileKey with
    | .error msg => ⟨1, file.fileKey, none, some (fieldCode ++ "/" ++ file.name ++ ": " ++ msg), 0, false⟩
    | .ok buffer =>
      match compressToBuffer ops buffer file.name maxSizeBytes targetQuality with
      | .error msg => ⟨1, file.fileKey, none, some (fieldCode ++ "/" ++ file.name ++ ": " ++ msg), 0, false⟩
      | .ok none => ⟨1, file.fileKey, none, none, 1, false⟩
      | .ok (some (data, res)) =>
        match cl.upload res.newName data with
        | .error msg => ⟨2, file.fileKey, none, some (fieldCode ++ "/" ++ file.name ++ ": " ++ msg), 0, false⟩
        | .ok newKey => ⟨2, newKey, some res, none, 0, true⟩

/-- State carried through one field's file loop. -/
structure FieldState where
  counter : ApiCounter
  keys : List String
  files : List CompressResult
  errors : List String
  skipped : Nat
  totalCompressed : Nat
  totalSaved : Int
  fieldModified : Bool
deriving Repr

/-- The per-file loop over one field's attachments. -/
def processFilesLoop {Buf : Type} (ops : ImageOps Buf) (cl : Client Buf)
    (maxSizeBytes targetQuality : Nat) (fieldCode : String) :
    List FileInfo → FieldState → FieldState
  | [], st => st
  | f :: fs, st =>
    let step := processFile ops cl maxSizeBytes targetQuality fieldCode f
    processFilesLoop ops cl maxSizeBytes targetQuality fieldCode fs
      { counter := Nat.repeat ApiCounter.increment step.calls st.counter
        keys := st.keys ++ [step.key]
        files := st.files ++ step.compResult.toList
        errors := st.errors ++ step.error.toList
        skipped := st.skipped + step.skippedInc
        totalCompressed := st.totalCompressed + (if step.modified then 1 else 0)
        totalSaved := st.totalSaved +
          (match step.compResult with
           | some r => (r.originalSize : Int) - (r.compressedSize : Int)
           | none => 0)
        fieldModified := st.fieldModified || step.modified }

/-- Record-level accumulator across the per-field loop. -/
structure RecordState where
  counter : ApiCounter
  files : List CompressResult
  skipped : Nat
  errors : List String
  totalCompressed : Nat
  totalSaved : Int
deriving Repr

/-- One field of one record in `runCompression`: skip empty fields and
fields with nothing oversized; otherwise run the file loop and, when the
field was modified, issue one update call (1 increment), recording
`fieldCode レコード更新失敗: msg` on failure. -/
def processField {Buf : Type} (ops : ImageOps Buf) (cl : Client Buf)
    (maxSizeBytes targetQuality : Nat) (r : KRecord)
    (st : RecordState) (fieldCode : String) : RecordState :=
  let files := extractFiles r fieldCode
  if files.length = 0 then st
  else if !(files.any fun f => isImageFile f.name && decide (maxSizeBytes < f.size)) then st
  else
    let fst := processFilesLoop ops cl maxSizeBytes targetQuality fieldCode files
      ⟨st.counter, [], st.files, st.errors, st.skipped, st.totalCompressed, st.totalSaved, false⟩
    if fst.fieldModified then
      let counter1 := fst.counter.increment
      match cl.update r.id fieldCode fst.keys with
      | .ok _ =>
        ⟨counter1, fst.files, fst.skipped, fst.errors, fst.totalCompressed, fst.totalSaved⟩
      | .error msg =>
        ⟨counter1, fst.files, fst.skipped,
          fst.errors ++ [fieldCode ++ " レコード更新失敗: " ++ msg],
          fst.totalCompressed, fst.totalSaved⟩
    else ⟨fst.counter, fst.files, fst.skipped, fst.errors, fst.totalCompressed, fst.totalSaved⟩

/-- State of the whole compression pass.  `checkLog` is ghost: the
counter value at each per-record capacity check that passed. -/
structure RunState where
  counter : ApiCounter
  results : List ProcessResult
  totalCompressed : Nat
  totalSaved : Int
  processedCount : Nat
  stoppedByApiLimit : Bool
  maxId : Nat
  checkLog : List Nat
deriving Repr

/-- One record of `runCompression` (after its batch/capacity checks):
track the maximum id, skip records with nothing to compress, otherwise
fold the per-field processing and push one `ProcessResult`. -/
def processRecord {Buf : Type} (ops : ImageOps Buf) (cl : Client Buf)
    (fieldCodes : List String) (maxSizeBytes targetQuality : Nat)
    (r : KRecord) (st : RunState) : RunState :=
  let maxId1 := if st.maxId < r.id then r.id else st.maxId
  if !(fieldCodes.any fun fc =>
        (extractFiles r fc).any fun f => isImageFile f.name && decide (maxSizeBytes < f.size)) then
    { st with maxId := maxId1 }
  else
    let rst := fieldCodes.foldl (processField ops cl maxSizeBytes targetQuality r)
      ⟨st.counter, [], 0, [], st.totalCompressed, st.totalSaved⟩
    { st with
      counter := rst.counter
      results := st.results ++ [⟨r.id, rst.files, rst.skipped, rst.errors⟩]
      totalCompressed := rst.totalCompressed
      totalSaved := rst.totalSaved
      processedCount := st.processedCount + 1
      maxId := maxId1 }

/-- The record loop of `runCompression`: stop at the batch-size cap;
stop with `stoppedByApiLimit` when `hasCapacity(3)` fails; otherwise
process the record (logging the counter value of the passed check). -/
def recordsLoop {Buf : Type} (ops : ImageOps Buf) (cl : Client Buf)
    (fieldCodes : List String) (maxSizeBytes targetQuality batchSize : Nat) :
    List KRecord → RunState → RunState
  | [], st => st
  | r :: rs, st =>
    if decide (0 < batchSize) && decide (batchSize ≤ st.processedCount) then st
    else if !(st.counter.hasCapacity 3) then { st with stoppedByApiLimit := true }
    else
      recordsLoop ops cl fieldCodes maxSizeBytes targetQuality batchSize rs
        (processRecord ops cl fieldCodes maxSizeBytes targetQuality r
          { st with checkLog := st.checkLog ++ [st.counter.count] })

/-- The configuration consumed by `runCompression` (`lastProcessedId`
parsed at the adapter boundary: `none` models the empty string). -/
structure RunConfig where
  attachmentFields : List String
  maxFileSizeMB : Nat
  targetQuality : Nat
  batchSize : Nat
  maxApiCalls : Nat
  lastProcessedId : Option Nat
deriving Repr

/-- `runCompression`: build the (possibly incremental) query, fetch all
records through the cursor paginator with a fresh counter sized by
`maxApiCalls`, then run the record loop. -/
def runCompression {Buf : Type} (ops : ImageOps Buf) (cl : Client Buf)
    (store : List KRecord) (cfg : RunConfig) : RunState × List String :=
  let maxSizeBytes := cfg.maxFileSizeMB * 1024 * 1024
  let query := match cfg.lastProcessedId with
    | some w => "$id > \"" ++ toString w ++ "\""
    | none => ""
  let p : KRecord → Bool := match cfg.lastProcessedId with
    | some w => fun r => decide (w < r.id)
    | none => fun _ => true
  let fetched := getAllRecords store p query ("$id" :: cfg.attachmentFields)
    (ApiCounter.mk 0 cfg.maxApiCalls)
  let st0 : RunState := ⟨fetched.counter, [], 0, 0, 0, false, 0, []⟩
  (recordsLoop ops cl cfg.attachmentFields maxSizeBytes cfg.targetQuality cfg.batchSize
    fetched.records st0, fetched.queries)

/-! ## Retention pruning (`delete-old-images.ts`) -/

/-- `DeleteResult` from `types.ts`. -/
structure DeleteResult where
  recordId : Nat
  deletedFiles : List String
  keptFiles : List String
  error : Option String
deriving DecidableEq, Repr

/-- Outcome of one (record, field) visit of `deleteOldImages` after the
capacity check.  `issued` is ghost: the attachment list handed to the
update call, when one was made. -/
structure FieldPrune where
  counter : ApiCounter
  result : Option DeleteResult
  issued : Option (List String)
  deletedCount : Nat
  recordDeleted : Bool
deriving Repr

/-- The body of the per-field loop of `deleteOldImages`: skip empty
fields; partition into image and non-image attachments; skip when there
is no image; otherwise update the field to the non-image keys (1 call),
recording the update failure, if any, on the per-record result. -/
def pruneFieldStep {Buf : Type} (cl : Client Buf) (recordId : Nat) (fieldCode : String)
    (files : List FileInfo) (counter : ApiCounter) : FieldPrune :=
  if files.length = 0 then ⟨counter, none, none, 0, false⟩
  else
    let imageFiles := files.filter fun f => isImageFile f.name
    let nonImageFiles := files.filter fun f => !(isImageFile f.name)
    if imageFiles.length = 0 then ⟨counter, none, none, 0, false⟩
    else
      let remainingFileKeys := nonImageFiles.map fun f => f.fileKey
      let counter1 := counter.increment
      match cl.update recordId fieldCode remainingFileKeys with
      | .ok _ =>
        ⟨counter1,
          some ⟨recordId, imageFiles.map (fun f => f.name), nonImageFiles.map (fun f => f.name), none⟩,
          some remainingFileKeys, imageFiles.length, true⟩
      | .error msg =>
        ⟨counter1,
          some ⟨recordId, imageFiles.map (fun f => f.name), nonImageFiles.map (fun f => f.name), some msg⟩,
          some remainingFileKeys, 0, false⟩

/-- State of the delete phase. -/
structure DeleteState where
  counter : ApiCounter
  results : List DeleteResult
  totalDeleted : Nat
  stoppedByApiLimit : Bool
deriving Repr

/-- The per-field loop of `deleteOldImages` for one record: before each
field, check capacity for 1 call and halt the phase if unavailable. -/
def deleteFieldsLoop {Buf : Type} (cl : Client Buf) (r : KRecord) :
    List String → DeleteState → DeleteState
  | [], st => st
  | fc :: fcs, st =>
    if !(st.counter.hasCapacity 1) then { st with stoppedByApiLimit := true }
    else
      let step := pruneFieldStep cl r.id fc (extractFiles r fc) st.counter
      match step.result with
      | none => deleteFieldsLoop cl r fcs st
      | some res =>
        deleteFieldsLoop cl r fcs
          { st with
            counter := step.counter
            results := st.results ++ [res]
            totalDeleted := st.totalDeleted + step.deletedCount }

/-- The record loop of `deleteOldImages`: run the field loop, then stop
the whole phase if it hit the quota. -/
def deleteRecordsLoop {Buf : Type} (cl : Client Buf) (fieldCodes : List String) :
    List KRecord → DeleteState → DeleteState
  | [], st => st
  | r :: rs, st =>
    let st1 := deleteFieldsLoop cl r fieldCodes st
    if st1.stoppedByApiLimit then st1
    else deleteRecordsLoop cl fieldCodes rs st1

/-- `deleteOldImages`: query the records created before the cutoff date
(`cutoffDate` is the formatted date string; `cutoffPred` its store-side
meaning) in ascending id order, then run the record loop. -/
def deleteOldImages {Buf : Type} (cl : Client Buf) (store : List KRecord)
    (cutoffDate : String) (cutoffPred : KRecord → Bool) (fieldCodes : List String)
    (maxApiCalls : Nat) : DeleteState × List String :=
  let query := "作成日時 < \"" ++ cutoffDate ++ "\" order by $id asc"
  let fetched := getAllRecords store cutoffPred query ("$id" :: fieldCodes)
    (ApiCounter.mk 0 maxApiCalls)
  (deleteRecordsLoop cl fieldCodes fetched.records ⟨fetched.counter, [], 0, false⟩,
    fetched.queries)

/-! ## C8 — `ApiCounter` contract -/

/-- C8: `hasCapacity(n)` is true iff `current + n <= limit`, `remaining`
is `max(0, limit - current)` (as integers), and for `consumed <= ceiling`
the capacity check succeeds exactly up to the remaining headroom. -/
theorem c8_api_counter_contract (ceiling consumed : Nat) (h : consumed ≤ ceiling) :
    (∀ n : Nat, (ApiCounter.mk consumed ceiling).hasCapacity n = true ↔
      (ApiCounter.mk consumed ceiling).current + n ≤ ceiling) ∧
    ((ApiCounter.mk consumed ceiling).remaining : Int) =
      max 0 ((ceiling : Int) - ((ApiCounter.mk consumed ceiling).current : Int)) ∧
    (ApiCounter.mk consumed ceiling).hasCapacity (ceiling - consumed) = true ∧
    (ApiCounter.mk consumed ceiling).hasCapacity (ceiling - consumed + 1) = false := by
  refine ⟨fun n => ?_, ?_, ?_, ?_⟩
  · simp [ApiCounter.hasCapacity, ApiCounter.current]
  · simp only [ApiCounter.remaining, ApiCounter.current]
    omega
  · simp only [ApiCounter.hasCapacity, decide_eq_true_eq]
    omega
  · simp only [ApiCounter.hasCapacity, decide_eq_false_iff_not]
    omega

/-- Witness for C8 at `ceiling = 5`, `consumed = 3`. -/
theorem c8_api_counter_contract_witness :
    (3 ≤ 5 ∧ (ApiCounter.mk 3 5).hasCapacity 2 = true ∧
      (ApiCounter.mk 3 5).hasCapacity 3 = false) := by
  have h := c8_api_counter_contract 5 3 (by decide)
  exact ⟨by decide, h.2.2.1, h.2.2.2⟩

/-! ## C9 — `compressToBuffer` preconditions -/

/-- C9: `compressToBuffer` returns `none` (without issuing any codec
call) whenever the input is already under budget or the file name is not
a recognised image type. -/
theorem c9_returns_none_under_budget {Buf : Type} (ops : ImageOps Buf) (buffer : Buf)
    (fileName : String) (maxSizeBytes startQuality : Nat)
    (h : ops.len buffer ≤ maxSizeBytes ∨ isImageFile fileName = false) :
    compressToBuffer ops buffer fileName maxSizeBytes startQuality = .ok none := by
  unfold compressToBuffer
  rw [if_pos h]

/-- A trivial length-only codec over `Buf := Nat` used for witnesses:
the "buffer" is its own byte length. -/
def opsLen : ImageOps Nat where
  len := fun b => b
  jpeg := fun _ q => .ok (q * 10)
  resizeJpeg := fun _ _ _ => .ok 100
  metadata := fun _ => .ok (some 4000, some 3000)

/-- Witness for C9: an input of 100 bytes with a 200-byte budget (an
image name), and a 5000-byte non-image input, both yield `none`. -/
theorem c9_returns_none_under_budget_witness :
    (opsLen.len 100 ≤ 200 ∨ isImageFile "photo.jpg" = false) ∧
    compressToBuffer opsLen 100 "photo.jpg" 200 80 = .ok none ∧
    compressToBuffer opsLen 5000 "report.pdf" 200 80 = .ok none := by
  refine ⟨Or.inl (by decide), ?_, ?_⟩
  · exact c9_returns_none_under_budget opsLen 100 "photo.jpg" 200 80 (Or.inl (by decide))
  · exact c9_returns_none_under_budget opsLen 5000 "report.pdf" 200 80 (Or.inr (by decide))

/-! ## Concrete fixtures used by witnesses and counterexamples -/

/-- A client whose calls all succeed: downloads yield a 2 MB buffer,
uploads yield the key `"newkey"`. -/
def clOK : Client Nat where
  download := fun _ => .ok 2000000
  upload := fun _ _ => .ok "newkey"
  update := fun _ _ _ => .ok ()

/-- A client whose downloads fail. -/
def clFailDownload : Client Nat where
  download := fun _ => .error "network down"
  upload := fun _ _ => .ok "newkey"
  update := fun _ _ _ => .ok ()

/-- A length-only codec whose every encoding is 2 bytes (so the first
quality step always fits). -/
def opsSmall : ImageOps Nat where
  len := fun b => b
  jpeg := fun _ _ => .ok 2
  resizeJpeg := fun _ _ _ => .ok 2
  metadata := fun _ => .ok (some 100, some 100)

/-- Configuration for the C1 counterexample: 1 MB budget, ceiling 4. -/
def cfgC1 : RunConfig := ⟨["photos"], 1, 80, 0, 4, none⟩

/-- One record with two oversized images in one field. -/
def storeC1 : List KRecord :=
  [⟨1, [("photos", [⟨"fk1", "a.jpg", 2000000⟩, ⟨"fk2", "b.jpg", 2000000⟩])]⟩]

/-- Configuration for the C7 scenario: 1 MB budget, ceiling 5. -/
def cfgC7 : RunConfig := ⟨["photos"], 1, 80, 0, 5, none⟩

/-- Two records, each with exactly one oversized image in one field, so
each needs exactly 3 calls (download + upload + update) to compress. -/
def storeC7 : List KRecord :=
  [⟨1, [("photos", [⟨"k1", "a.jpg", 2000000⟩])]⟩,
   ⟨2, [("photos", [⟨"k2", "b.jpg", 2000000⟩])]⟩]

/-! ## Counter-limit preservation through the compression pass -/

/-- Repeated `increment` never changes the limit. -/
theorem limit_repeat_increment (n : Nat) (c : ApiCounter) :
    (Nat.repeat ApiCounter.increment n c).limit = c.limit := by
  induction n with
  | zero => rfl
  | succ k ih => simp [Nat.repeat, ApiCounter.increment, ih]

/-- The per-file loop never changes the limit. -/
theorem processFilesLoop_limit {Buf : Type} (ops : ImageOps Buf) (cl : Client Buf)
    (ms q : Nat) (fc : String) :
    ∀ (files : List FileInfo) (st : FieldState),
      (processFilesLoop ops cl ms q fc files st).counter.limit = st.counter.limit := by
  intro files
  induction files with
  | nil => intro st; rfl
  | cons f fs ih =>
    intro st
    rw [processFilesLoop, ih]
    exact limit_repeat_increment _ _

/-- Per-field processing never changes the limit. -/
theorem processField_limit {Buf : Type} (ops : ImageOps Buf) (cl : Client Buf)
    (ms q : Nat) (r : KRecord) (st : RecordState) (fc : String) :
    (processField ops cl ms q r st fc).counter.limit = st.counter.limit := by
  simp only [processField]
  split
  · rfl
  · split
    · rfl
    · split
      · split <;> simp [ApiCounter.increment, processFilesLoop_limit]
      · simp [processFilesLoop_limit]

/-- The per-record field fold never changes the limit. -/
theorem foldl_processField_limit {Buf : Type} (ops : ImageOps Buf) (cl : Client Buf)
    (ms q : Nat) (r : KRecord) :
    ∀ (fcs : List String) (rst : RecordState),
      ((fcs.foldl (processField ops cl ms q r) rst).counter.limit) = rst.counter.limit := by
  intro fcs
  induction fcs with
  | nil => intro rst; rfl
  | cons fc fcs ih =>
    intro rst
    rw [List.foldl_cons, ih, processField_limit]

/-- Processing one record preserves the limit and the ghost check log. -/
theorem processRecord_limit_checkLog {Buf : Type} (ops : ImageOps Buf) (cl : Client Buf)
    (fcs : List String) (ms q : Nat) (r : KRecord) (st : RunState) :
    (processRecord ops cl fcs ms q r st).counter.limit = st.counter.limit ∧
    (processRecord ops cl fcs ms q r st).checkLog = st.checkLog := by
  unfold processRecord
  split <;> split <;>
    first
    | exact ⟨rfl, rfl⟩
    | exact ⟨foldl_processField_limit ops cl ms q r fcs _, rfl⟩

/-- Every counter value logged at a passed per-record capacity check
leaves room for 3 more calls under the limit. -/
theorem recordsLoop_checkLog_bound {Buf : Type} (ops : ImageOps Buf) (cl : Client Buf)
    (fcs : List String) (ms q bs L : Nat) :
    ∀ (records : List KRecord) (st : RunState),
      st.counter.limit = L → (∀ c ∈ st.checkLog, c + 3 ≤ L) →
      ∀ c ∈ (recordsLoop ops cl fcs ms q bs records st).checkLog, c + 3 ≤ L := by
  intro records
  induction records with
  | nil => intro st _ hlog; simpa [recordsLoop] using hlog
  | cons r rs ih =>
    intro st hlim hlog
    rw [recordsLoop]
    split
    · exact hlog
    · split
      case isTrue => exact hlog
      case isFalse hcap =>
        have hcap' : st.counter.hasCapacity 3 = true := by simpa using hcap
        have hcap3 : st.counter.count + 3 ≤ L := by
          unfold ApiCounter.hasCapacity at hcap'
          have h3 := of_decide_eq_true hcap'
          omega
        have hpre := processRecord_limit_checkLog ops cl fcs ms q r
          { st with checkLog := st.checkLog ++ [st.counter.count] }
        refine ih _ ?_ ?_
        · rw [hpre.1]; exact hlim
        · rw [hpre.2]
          intro c hc
          rcases List.mem_append.mp hc with hc | hc
          · exact hlog c hc
          · rcases List.mem_singleton.mp hc with rfl
            exact hcap3

/-- The paginator never changes the limit. -/
theorem getAllRecordsAux_limit (store : List KRecord) (p : KRecord → Bool) (uq : String) :
    ∀ (fuel lastId : Nat) (counter : ApiCounter),
      (getAllRecordsAux store p uq fuel lastId counter).counter.limit = counter.limit := by
  intro fuel
  induction fuel with
  | zero => intro lastId counter; rfl
  | succ k ih =>
    intro lastId counter
    rw [getAllRecordsAux]
    split
    · rfl
    · exact ih _ _

/-! ## C1 — quota ceiling (corrected) -/

/-- C1 (amended): the pre-flight `hasCapacity(3)` check guarantees that
whenever a record's compression work starts, the counter still has room
for 3 calls under `maxApiCalls` (`checkLog` records the counter value at
each passed check).  The original invariant `current <= maxApiCalls`
after every operation does not hold: pagination queries are issued
without any capacity check and a record may issue more than the 3
reserved calls — see the counterexample. -/
theorem c1_precheck_guarantee {Buf : Type} (ops : ImageOps Buf) (cl : Client Buf)
    (store : List KRecord) (cfg : RunConfig) :
    ∀ c ∈ (runCompression ops cl store cfg).1.checkLog, c + 3 ≤ cfg.maxApiCalls := by
  intro c hc
  have hlim : ∀ (p : KRecord → Bool) (uq : String) (fields : List String),
      (getAllRecords store p uq fields (ApiCounter.mk 0 cfg.maxApiCalls)).counter.limit
        = cfg.maxApiCalls := by
    intro p uq fields
    unfold getAllRecords
    exact getAllRecordsAux_limit store p uq _ _ _
  rcases hmode : cfg.lastProcessedId with _ | w <;>
  · simp only [runCompression, hmode] at hc
    exact recordsLoop_checkLog_bound ops cl cfg.attachmentFields _ _ _ cfg.maxApiCalls _ _
      (hlim _ _ _) (by intro x hx; cases hx) c hc

/-- Witness for C1 (amended): in the `storeC1`/`cfgC1` run the check
passed once, at counter value 1, and indeed `1 + 3 <= 4`. -/
theorem c1_precheck_guarantee_witness :
    1 ∈ (runCompression opsSmall clOK storeC1 cfgC1).1.checkLog ∧ 1 + 3 ≤ cfgC1.maxApiCalls :=
  ⟨by decide, c1_precheck_guarantee opsSmall clOK storeC1 cfgC1 1 (by decide)⟩

/-- Counterexample to C1 as stated: with ceiling 4 and one record whose
single field holds two oversized images, the run issues 1 query + 2
downloads + 2 uploads + 1 update = 6 calls, so after the run
`ApiCounter.current = 6 > 4 = maxApiCalls`. -/
theorem c1_counter_can_exceed_limit :
    ¬ ((runCompression opsSmall clOK storeC1 cfgC1).1.counter.count ≤ cfgC1.maxApiCalls) := by
  decide

/-! ## C7 — end-to-end quota scenario (corrected) -/

/-- Counterexample to C7 as stated: in the ceiling-5, two-record
scenario the run does halt, but the failing capacity check happens at
`consumed = 4` (not 3) and `remaining = 1` (not 2), because the initial
pagination query also consumed one call. -/
theorem c7_quota_scenario_counterexample :
    (runCompression opsSmall clOK storeC7 cfgC7).1.stoppedByApiLimit = true ∧
    ¬ ((runCompression opsSmall clOK storeC7 cfgC7).1.counter.count = 3) ∧
    ¬ ((runCompression opsSmall clOK storeC7 cfgC7).1.counter.remaining = 2) := by
  decide

/-- C7 (amended): quota ceiling 5, two records each needing exactly 3
calls — the query consumes 1 call, the first record 3 more, and the
second record's check for 3 calls fails at consumed = 4, remaining = 1;
the run halts with `stoppedByApiLimit = true` and exactly one record
compressed. -/
theorem c7_quota_scenario_amended :
    (runCompression opsSmall clOK storeC7 cfgC7).1.stoppedByApiLimit = true ∧
    (runCompression opsSmall clOK storeC7 cfgC7).1.results.length = 1 ∧
    (runCompression opsSmall clOK storeC7 cfgC7).1.totalCompressed = 1 ∧
    (runCompression opsSmall clOK storeC7 cfgC7).1.counter.count = 4 ∧
    (runCompression opsSmall clOK storeC7 cfgC7).1.counter.remaining = 1 := by
  decide

/-! ## C5 — per-file failure handling and update-plan structure -/

/-- C5: a file that was not successfully compressed-and-uploaded (pass
through, compression returning nothing, or a download / compression /
upload failure) keeps its original key; and over a whole field the plan
`updatedFileKeys` is exactly one key per original attachment in
original order (the per-file key), while the errors list accumulates
exactly the per-file failures in order — so processing continues past a
failing file. -/
theorem c5_update_plan_structure {Buf : Type} (ops : ImageOps Buf) (cl : Client Buf)
    (ms q : Nat) (fc : String) :
    (∀ f : FileInfo, (processFile ops cl ms q fc f).modified = false →
      (processFile ops cl ms q fc f).key = f.fileKey) ∧
    (∀ (files : List FileInfo) (st : FieldState),
      (processFilesLoop ops cl ms q fc files st).keys
        = st.keys ++ files.map (fun f => (processFile ops cl ms q fc f).key) ∧
      (processFilesLoop ops cl ms q fc files st).errors
        = st.errors ++ files.filterMap (fun f => (processFile ops cl ms q fc f).error)) := by
  constructor
  · intro f
    unfold processFile
    split
    · intro _; rfl
    · split
      · intro _; rfl
      · split
        · intro _; rfl
        · intro _; rfl
        · split
          · intro _; rfl
          · intro h; simp at h
  · intro files
    induction files with
    | nil => intro st; exact ⟨by simp [processFilesLoop], by simp [processFilesLoop]⟩
    | cons f fs ih =>
      intro st
      rw [processFilesLoop]
      constructor
      · rw [(ih _).1]
        simp [List.append_assoc]
      · rw [(ih _).2]
        cases herr : (processFile ops cl ms q fc f).error <;>
          simp [herr, List.filterMap_cons, List.append_assoc, Option.toList]

/-- Witness for C5: a download failure (client `clFailDownload`) on an
oversized image leaves `modified = false` and keeps the original key. -/
theorem c5_update_plan_structure_witness :
    (processFile opsSmall clFailDownload 1048576 80 "photos"
        ⟨"origkey", "big.jpg", 2000000⟩).modified = false ∧
    (processFile opsSmall clFailDownload 1048576 80 "photos"
        ⟨"origkey", "big.jpg", 2000000⟩).key = "origkey" :=
  ⟨by decide,
    (c5_update_plan_structure opsSmall clFailDownload 1048576 80 "photos").1
      ⟨"origkey", "big.jpg", 2000000⟩ (by decide)⟩

/-! ## C6 — retention pruning plan -/

/-- C6: a field visit of `deleteOldImages` issues an update exactly when
the field has at least one image attachment, and the issued plan is
exactly the non-image file keys in their original order (so a non-image
attachment is never deleted). -/
theorem c6_prune_plan {Buf : Type} (cl : Client Buf) (recordId : Nat) (fieldCode : String)
    (files : List FileInfo) (counter : ApiCounter) :
    ((pruneFieldStep cl recordId fieldCode files counter).issued = none ↔
      files.filter (fun f => isImageFile f.name) = []) ∧
    (∀ plan, (pruneFieldStep cl recordId fieldCode files counter).issued = some plan →
      plan = (files.filter fun f => !(isImageFile f.name)).map (fun f => f.fileKey)) := by
  simp only [pruneFieldStep]
  split
  case isTrue hempty =>
    have hnil : files = [] := List.length_eq_zero.mp hempty
    subst hnil
    exact ⟨by simp, by intro plan h; cases h⟩
  case isFalse hne =>
    split
    case isTrue himg =>
      have : files.filter (fun f => isImageFile f.name) = [] :=
        List.length_eq_zero.mp himg
      exact ⟨by simpa using this, by intro plan h; cases h⟩
    case isFalse himg =>
      have hne2 : ¬ files.filter (fun f => isImageFile f.name) = [] := by
        intro h
        exact himg (by simp [h])
      split
      · constructor
        · constructor
          · intro h; cases h
          · intro h; exact absurd h hne2
        · intro plan h
          cases h
          rfl
      · constructor
        · constructor
          · intro h; cases h
          · intro h; exact absurd h hne2
        · intro plan h
          cases h
          rfl

/-- Witness for C6: a field with one image and one PDF issues a plan
containing only the PDF's key. -/
theorem c6_prune_plan_witness :
    (pruneFieldStep clOK 1 "photos"
        [⟨"imgkey", "photo.jpg", 100⟩, ⟨"pdfkey", "report.pdf", 100⟩]
        (ApiCounter.mk 0 10)).issued = some ["pdfkey"] ∧
    ["pdfkey"] =
      (([⟨"imgkey", "photo.jpg", 100⟩, ⟨"pdfkey", "report.pdf", 100⟩] :
          List FileInfo).filter fun f => !(isImageFile f.name)).map (fun f => f.fileKey) :=
  ⟨by decide,
    (c6_prune_plan clOK 1 "photos"
        [⟨"imgkey", "photo.jpg", 100⟩, ⟨"pdfkey", "report.pdf", 100⟩]
        (ApiCounter.mk 0 10)).2 ["pdfkey"] (by decide)⟩

/-! ## C2 — quality ladder ordering -/

/-- C2: with `startQuality = 80`, an (oversized image) input whose
quality-80 encoding is still over budget but whose quality-60 encoding
fits yields exactly the quality-60 encoding — quality 40 and the resize
ladder are never reached. -/
theorem c2_quality_ladder_order {Buf : Type} (ops : ImageOps Buf) (buffer : Buf)
    (fileName : String) (maxSizeBytes : Nat) (b80 b60 : Buf)
    (hbig : maxSizeBytes < ops.len buffer) (himg : isImageFile fileName = true)
    (h80 : ops.jpeg buffer 80 = .ok b80) (h80big : maxSizeBytes < ops.len b80)
    (h60 : ops.jpeg buffer 60 = .ok b60) (h60fit : ops.len b60 ≤ maxSizeBytes) :
    compressToBuffer ops buffer fileName maxSizeBytes 80 =
      .ok (some (makeResult ops b60 (ops.len buffer) fileName)) := by
  have hcond : ¬ (ops.len buffer ≤ maxSizeBytes ∨ isImageFile fileName = false) := by
    rintro (h | h)
    · omega
    · rw [himg] at h; cases h
  have hq : runQuality ops buffer maxSizeBytes 80 QUALITY_STEPS none = .ok (.inl b60) := by
    simp only [QUALITY_STEPS, runQuality, h80, h60,
      if_neg (show ¬ (80:Nat) < 80 by decide), if_neg (show ¬ (80:Nat) < 60 by decide),
      if_neg (Nat.not_le.mpr h80big), if_pos h60fit]
  simp only [compressToBuffer, hq]
  rw [if_neg hcond]

/-- A codec for the C2 witness: quality 80 encodes to 500 bytes,
quality 60 to 100 bytes, anything else to 50 bytes. -/
def opsC2 : ImageOps Nat where
  len := fun b => b
  jpeg := fun _ q => .ok (if q = 80 then 500 else if q = 60 then 100 else 50)
  resizeJpeg := fun _ _ _ => .ok 50
  metadata := fun _ => .ok (some 4000, some 3000)

/-- Witness for C2: a 1000-byte image with a 200-byte budget that fits
at quality 60 but not at 80 returns the 100-byte quality-60 encoding. -/
theorem c2_quality_ladder_order_witness :
    (200 < opsC2.len 1000 ∧ isImageFile "photo.jpg" = true) ∧
    compressToBuffer opsC2 1000 "photo.jpg" 200 80 =
      .ok (some (makeResult opsC2 100 (opsC2.len 1000) "photo.jpg")) :=
  ⟨⟨by decide, by decide⟩,
    c2_quality_ladder_order opsC2 1000 "photo.jpg" 200 500 100
      (by decide) (by decide) rfl (by decide) rfl (by decide)⟩

/-! ## C4 — best-effort fallback -/

/-- C4: when every attempted quality-only encoding is over budget and
the image's longest side is at most 1500 (not larger than any resize
target), the resize ladder is skipped entirely and the result is the
best-effort quality-40 encoding (the last candidate) — not a resized
image and not `none`.  And when no candidate is ever produced (every
quality skipped because `startQuality < 40`, every resize target
skipped), the result is `none`. -/
theorem c4_best_effort_fallback {Buf : Type} (ops : ImageOps Buf) (buffer : Buf)
    (fileName : String) (maxSizeBytes startQuality : Nat) (b80 b60 b40 : Buf)
    (wOpt hOpt : Option Nat)
    (hbig : maxSizeBytes < ops.len buffer) (himg : isImageFile fileName = true)
    (h80 : ops.jpeg buffer 80 = .ok b80) (h80b : maxSizeBytes < ops.len b80)
    (h60 : ops.jpeg buffer 60 = .ok b60) (h60b : maxSizeBytes < ops.len b60)
    (h40 : ops.jpeg buffer 40 = .ok b40) (h40b : maxSizeBytes < ops.len b40)
    (hsq : 40 ≤ startQuality)
    (hmeta : ops.metadata buffer = .ok (wOpt, hOpt))
    (hsmall : max (wOpt.getD 0) (hOpt.getD 0) ≤ 1500) :
    compressToBuffer ops buffer fileName maxSizeBytes startQuality =
      .ok (some (makeResult ops b40 (ops.len buffer) fileName)) ∧
    ∀ sq2, sq2 < 40 →
      compressToBuffer ops buffer fileName maxSizeBytes sq2 = .ok none := by
  have hcond : ¬ (ops.len buffer ≤ maxSizeBytes ∨ isImageFile fileName = false) := by
    rintro (h | h)
    · omega
    · rw [himg] at h; cases h
  have hr : ∀ last, runResize ops buffer maxSizeBytes (wOpt.getD 0) (hOpt.getD 0)
      (max (wOpt.getD 0) (hOpt.getD 0)) RESIZE_STEPS last = .ok (.inr last) := by
    intro last
    have h1 : max (wOpt.getD 0) (hOpt.getD 0) ≤ 3000 :=
      le_trans hsmall (by norm_num)
    have h2 : max (wOpt.getD 0) (hOpt.getD 0) ≤ 2000 :=
      le_trans hsmall (by norm_num)
    simp only [RESIZE_STEPS, runResize, if_pos h1, if_pos h2, if_pos hsmall]
  constructor
  · have hq : runQuality ops buffer maxSizeBytes startQuality QUALITY_STEPS none
        = .ok (.inr (some b40)) := by
      rcases Nat.lt_or_ge startQuality 80 with hA | hA
      · rcases Nat.lt_or_ge startQuality 60 with hB | hB
        · simp only [QUALITY_STEPS, runQuality, if_pos hA, if_pos hB,
            if_neg (Nat.not_lt.mpr hsq), h40, if_neg (Nat.not_le.mpr h40b)]
        · simp only [QUALITY_STEPS, runQuality, if_pos hA, if_neg (Nat.not_lt.mpr hB),
            h60, if_neg (Nat.not_le.mpr h60b), if_neg (Nat.not_lt.mpr hsq),
            h40, if_neg (Nat.not_le.mpr h40b)]
      · have hB : 60 ≤ startQuality := le_trans (by norm_num) hA
        simp only [QUALITY_STEPS, runQuality, if_neg (Nat.not_lt.mpr hA), h80,
          if_neg (Nat.not_le.mpr h80b), if_neg (Nat.not_lt.mpr hB), h60,
          if_neg (Nat.not_le.mpr h60b), if_neg (Nat.not_lt.mpr hsq), h40,
          if_neg (Nat.not_le.mpr h40b)]
    simp only [compressToBuffer, hq, hmeta]
    rw [if_neg hcond, hr (some b40)]
  · intro sq2 hsq2
    have hq2 : runQuality ops buffer maxSizeBytes sq2 QUALITY_STEPS none
        = .ok (.inr none) := by
      simp only [QUALITY_STEPS, runQuality, if_pos (show sq2 < 80 by omega),
        if_pos (show sq2 < 60 by omega), if_pos hsq2]
    simp only [compressToBuffer, hq2, hmeta]
    rw [if_neg hcond, hr none]

/-- A codec for the C4 witness: every encoding is 300 bytes (over the
200-byte budget); the image is 1200 × 900, below every resize target. -/
def opsC4 : ImageOps Nat where
  len := fun b => b
  jpeg := fun _ _ => .ok 300
  resizeJpeg := fun _ _ _ => .ok 250
  metadata := fun _ => .ok (some 1200, some 900)

/-- Witness for C4: the oversized small-dimension image that fails every
quality gets the best-effort 300-byte quality-40 encoding; with
`startQuality = 30` (nothing attempted) the result is `none`. -/
theorem c4_best_effort_fallback_witness :
    compressToBuffer opsC4 1000 "photo.jpg" 200 80 =
      .ok (some (makeResult opsC4 300 (opsC4.len 1000) "photo.jpg")) ∧
    compressToBuffer opsC4 1000 "photo.jpg" 200 30 = .ok none :=
  ⟨(c4_best_effort_fallback opsC4 1000 "photo.jpg" 200 80 300 300 300 (some 1200) (some 900)
      (by decide) (by decide) rfl (by decide) rfl (by decide) rfl (by decide)
      (by decide) rfl (by decide)).1,
    (c4_best_effort_fallback opsC4 1000 "photo.jpg" 200 80 300 300 300 (some 1200) (some 900)
      (by decide) (by decide) rfl (by decide) rfl (by decide) rfl (by decide)
      (by decide) rfl (by decide)).2 30 (by decide)⟩

/-! ## C10 — extension-only classification (corrected) -/

/-- A `some` result of `splitLastDot` decomposes the input around its
last dot. -/
theorem splitLastDot_decomp :
    ∀ (cs p suf : List Char), splitLastDot cs = some (p, suf) → cs = p ++ '.' :: suf := by
  intro cs
  induction cs with
  | nil => intro p suf h; cases h
  | cons c cs ih =>
    intro p suf h
    rw [splitLastDot] at h
    rcases hsp : splitLastDot cs with _ | ⟨p', s'⟩ <;> rw [hsp] at h
    · by_cases hc : c = '.'
      · rw [if_pos hc] at h
        simp only [Option.some.injEq, Prod.mk.injEq] at h
        obtain ⟨h1, h2⟩ := h
        subst h1
        subst h2
        simp [hc]
      · rw [if_neg hc] at h
        cases h
    · simp only [Option.some.injEq, Prod.mk.injEq] at h
      obtain ⟨h1, h2⟩ := h
      subst h1
      subst h2
      rw [ih p' s' hsp]
      rfl

/-- A string whose `splitLastDot` has an empty suffix (or none at all)
is not one of the image extensions. -/
theorem not_mem_exts_of_no_ext (s : String)
    (h : ∀ p suf, splitLastDot s.toList = some (p, suf) → suf = []) :
    s ∉ IMAGE_EXTENSIONS := by
  intro hmem
  have hcases : s = ".jpg" ∨ s = ".jpeg" ∨ s = ".png" ∨ s = ".heic" ∨ s = ".heif" ∨
      s = ".webp" ∨ s = ".avif" ∨ s = ".tiff" ∨ s = ".tif" := by
    simpa [IMAGE_EXTENSIONS] using hmem
  rcases hcases with rfl | rfl | rfl | rfl | rfl | rfl | rfl | rfl | rfl <;>
    exact absurd (h _ _ rfl) (by decide)

/-- For a name whose lowercasing contains no line terminator,
`isImageFile` is determined by the spec's final extension. -/
theorem isImageFile_char (s : String)
    (hs : ((jsToLower s).toList.all fun c => !(isLineTerminator c)) = true) :
    isImageFile s = (match specFinalExtension (jsToLower s) with
      | some e => decide (e ∈ IMAGE_EXTENSIONS)
      | none => false) := by
  unfold isImageFile jsExtractExt specFinalExtension
  rcases hsp : splitLastDot (jsToLower s).toList with _ | ⟨p, suf⟩
  · exact decide_eq_false (not_mem_exts_of_no_ext _ (by intro p' suf' hc; rw [hsp] at hc; cases hc))
  · have hdec := splitLastDot_decomp _ p suf hsp
    have hp : p.all (fun c => !(isLineTerminator c)) = true := by
      rw [hdec] at hs
      simp only [List.all_append, Bool.and_eq_true] at hs
      exact hs.1
    cases suf with
    | nil =>
      have hnone : ∀ p' suf', splitLastDot (jsToLower s).toList = some (p', suf') → suf' = [] := by
        intro p' suf' hc
        rw [hsp] at hc
        simp only [Option.some.injEq, Prod.mk.injEq] at hc
        exact hc.2.symm
      exact decide_eq_false (not_mem_exts_of_no_ext _ hnone)
    | cons c cs =>
      dsimp only
      simp only [List.isEmpty_cons, Bool.not_false, Bool.true_and]
      rw [if_pos hp]
      rfl

/-- C10 (amended): classification is extension-only and case-insensitive
for names whose lowercasing contains no line-terminator character: two
such names with the same final extension classify identically.  (The
regex's `.` does not match line terminators, so a name such as
`"a\nb.jpg"` falls back to whole-name comparison and is not classified
as an image — see the counterexample.) -/
theorem c10_extension_only_amended (s t : String)
    (hs : ((jsToLower s).toList.all fun c => !(isLineTerminator c)) = true)
    (ht : ((jsToLower t).toList.all fun c => !(isLineTerminator c)) = true)
    (hext : specFinalExtension (jsToLower s) = specFinalExtension (jsToLower t)) :
    isImageFile s = isImageFile t := by
  rw [isImageFile_char s hs, isImageFile_char t ht, hext]

/-- Witness for C10 (amended): `"Photo.PNG"` and `"photo.png"` share the
final extension `.png` and classify identically (as images), while
`"report.pdf"` does not classify. -/
theorem c10_extension_only_amended_witness :
    specFinalExtension (jsToLower "Photo.PNG") = specFinalExtension (jsToLower "photo.png") ∧
    isImageFile "Photo.PNG" = isImageFile "photo.png" ∧
    isImageFile "Photo.PNG" = true ∧ isImageFile "report.pdf" = false :=
  ⟨by decide,
    c10_extension_only_amended "Photo.PNG" "photo.png" (by decide) (by decide) (by decide),
    by decide, by decide⟩

/-- Counterexample to C10 as stated: `"a\nb.jpg"` and `"ab.jpg"` have
the same lowercased final extension `.jpg`, yet only the latter is
classified as an image — classification does not depend only on the
final extension. -/
theorem c10_not_extension_only :
    specFinalExtension (jsToLower "a\nb.jpg") = specFinalExtension (jsToLower "ab.jpg") ∧
    isImageFile "ab.jpg" = true ∧ isImageFile "a\nb.jpg" = false := by
  decide

/-! ## C3 — cursor pagination correctness -/

/-- `getLastD` of a `take (n + 1)` prefix is the element at index `n`. -/
theorem getLastD_take {α : Type} :
    ∀ (l : List α) (n : Nat) (d : α) (h : n < l.length),
      (l.take (n + 1)).getLastD d = l.get ⟨n, h⟩ := by
  intro l
  induction l with
  | nil => intro n d h; cases h
  | cons x xs ih =>
    intro n d h
    cases n with
    | zero => rfl
    | succ m =>
      have hm : m < xs.length := by simpa using h
      rw [List.take_succ_cons, List.getLastD_cons, ih m x hm]
      rfl

/-- In a strictly id-sorted list, filtering by "id greater than the
element at index `n`" is exactly dropping the first `n + 1` elements. -/
theorem filter_gt_get_eq_drop :
    ∀ (l : List KRecord) (n : Nat) (h : n < l.length),
      l.Pairwise (fun a b => a.id < b.id) →
      l.filter (fun r => decide ((l.get ⟨n, h⟩).id < r.id)) = l.drop (n + 1) := by
  intro l
  induction l with
  | nil => intro n h _; cases h
  | cons x xs ih =>
    intro n h hpw
    obtain ⟨hx, hxs⟩ := List.pairwise_cons.mp hpw
    cases n with
    | zero =>
      show (x :: xs).filter (fun r => decide (x.id < r.id)) = xs
      rw [List.filter_cons_of_neg (by simp)]
      exact List.filter_eq_self.mpr fun a ha => decide_eq_true (hx a ha)
    | succ m =>
      have hm : m < xs.length := by simpa using h
      show (x :: xs).filter (fun r => decide ((xs.get ⟨m, hm⟩).id < r.id)) = xs.drop (m + 1)
      rw [List.filter_cons_of_neg ?hneg]
      · exact ih m hm hxs
      case hneg =>
        simp only [decide_eq_true_eq]
        intro hlt
        exact absurd (hx _ (List.get_mem xs m hm)) (by omega)

/-- Tightening the cursor: for `lastId < newId`, filtering the store by
the new cursor equals filtering the old result set by it. -/
theorem filter_cursor_step (store : List KRecord) (p : KRecord → Bool)
    (lastId newId : Nat) (hlt : lastId < newId) :
    (store.filter fun r => decide (newId < r.id) && p r)
      = (store.filter fun r => decide (lastId < r.id) && p r).filter
          (fun r => decide (newId < r.id)) := by
  rw [List.filter_filter]
  apply List.filter_congr
  intro r _
  by_cases hd : newId < r.id
  · simp [hd, decide_eq_true (lt_trans hlt hd)]
  · simp [hd]

/-- The pagination loop invariant: with enough fuel, the loop returns
exactly the records matching the cursor condition, issues
`length / 500 + 1` queries, and every issued query has the cursor
shape. -/
theorem getAllRecordsAux_spec (store : List KRecord) (p : KRecord → Bool) (uq : String)
    (hst : store.Pairwise fun a b => a.id < b.id) :
    ∀ (fuel lastId : Nat) (counter : ApiCounter),
      (store.filter fun r => decide (lastId < r.id) && p r).length / PAGE_LIMIT + 1 ≤ fuel →
      (getAllRecordsAux store p uq fuel lastId counter).records
          = (store.filter fun r => decide (lastId < r.id) && p r) ∧
      (getAllRecordsAux store p uq fuel lastId counter).queries.length
          = (store.filter fun r => decide (lastId < r.id) && p r).length / PAGE_LIMIT + 1 ∧
      ∀ s ∈ (getAllRecordsAux store p uq fuel lastId counter).queries,
        ∃ lid, s = fullQuery uq lid := by
  intro fuel
  induction fuel with
  | zero =>
    intro lastId counter hfuel
    simp only [PAGE_LIMIT] at hfuel
    omega
  | succ F ih =>
    intro lastId counter hfuel
    simp only [PAGE_LIMIT] at ih hfuel ⊢
    have hpage : queryPage store p lastId
        = (store.filter fun r => decide (lastId < r.id) && p r).take 500 := rfl
    simp only [getAllRecordsAux, PAGE_LIMIT]
    by_cases hlen : (queryPage store p lastId).length < 500
    · rw [if_pos hlen]
      have hplen : (store.filter fun r => decide (lastId < r.id) && p r).length < 500 := by
        rw [hpage, List.length_take] at hlen
        rcases Nat.le_total 500
            (store.filter fun r => decide (lastId < r.id) && p r).length with hle | hle
        · rw [Nat.min_eq_left hle] at hlen; omega
        · rw [Nat.min_eq_right hle] at hlen; exact hlen
      refine ⟨?_, ?_, ?_⟩
      · show queryPage store p lastId = _
        rw [hpage]
        exact List.take_of_length_le (le_of_lt hplen)
      · show [fullQuery uq lastId].length = _
        rw [Nat.div_eq_of_lt hplen]
        rfl
      · intro s hs
        rcases List.mem_singleton.mp hs with rfl
        exact ⟨lastId, rfl⟩
    · rw [if_neg hlen]
      have hge : 500 ≤ (store.filter fun r => decide (lastId < r.id) && p r).length := by
        rw [hpage, List.length_take] at hlen
        rcases Nat.le_total 500
            (store.filter fun r => decide (lastId < r.id) && p r).length with hle | hle
        · exact hle
        · rw [Nat.min_eq_right hle] at hlen; omega
      have hidx : 499 < (store.filter fun r => decide (lastId < r.id) && p r).length := by
        omega
      have hgetlast : (queryPage store p lastId).getLastD ⟨0, []⟩
          = (store.filter fun r => decide (lastId < r.id) && p r).get ⟨499, hidx⟩ := by
        rw [hpage]
        exact getLastD_take _ 499 _ hidx
      have hcur : lastId <
          ((store.filter fun r => decide (lastId < r.id) && p r).get ⟨499, hidx⟩).id := by
        have hmem := List.get_mem (store.filter fun r => decide (lastId < r.id) && p r) 499 hidx
        have h2 := (List.mem_filter.mp hmem).2
        simp only [Bool.and_eq_true, decide_eq_true_eq] at h2
        exact h2.1
      have hstep : (store.filter fun r =>
            decide (((store.filter fun r => decide (lastId < r.id) && p r).get
              ⟨499, hidx⟩).id < r.id) && p r)
          = (store.filter fun r => decide (lastId < r.id) && p r).drop 500 := by
        rw [filter_cursor_step store p lastId _ hcur]
        exact filter_gt_get_eq_drop
          (store.filter fun r => decide (lastId < r.id) && p r) 499 hidx (hst.filter _)
      have hdiv : (store.filter fun r => decide (lastId < r.id) && p r).length / 500
          = ((store.filter fun r => decide (lastId < r.id) && p r).length - 500) / 500 + 1 :=
        Nat.div_eq_sub_div (by norm_num) hge
      have hfuel2 : (store.filter fun r =>
            decide (((store.filter fun r => decide (lastId < r.id) && p r).get
              ⟨499, hidx⟩).id < r.id) && p r).length / 500 + 1 ≤ F := by
        rw [hstep, List.length_drop]
        omega
      have hstep2 : (store.filter fun r =>
            decide (((queryPage store p lastId).getLastD ⟨0, []⟩).id < r.id) && p r)
          = (store.filter fun r => decide (lastId < r.id) && p r).drop 500 := by
        rw [hgetlast]
        exact hstep
      obtain ⟨ih1, ih2, ih3⟩ := ih
        ((queryPage store p lastId).getLastD ⟨0, []⟩).id
        counter.increment (by rw [hgetlast]; exact hfuel2)
      refine ⟨?_, ?_, ?_⟩
      · show queryPage store p lastId ++ _ = _
        rw [ih1, hstep2, hpage]
        exact List.take_append_drop 500 _
      · show (fullQuery uq lastId :: _).length = _
        rw [List.length_cons, ih2, hstep2, List.length_drop, ← hdiv]
      · intro s hs
        rcases List.mem_cons.mp hs with rfl | hs
        · exact ⟨lastId, rfl⟩
        · exact ih3 s hs

/-- C3: over an id-sorted store of positive ids, `getAllRecords` returns
exactly the matching records — distinct and in strictly ascending id
order — stops exactly when a page is short (the loop invariant above),
fetches `matching / 500 + 1` pages, and every issued query has the form
`$id > "lastId" [and (userQuery)] order by $id asc limit 500`. -/
theorem c3_getAllRecords_correct (store : List KRecord) (p : KRecord → Bool)
    (uq : String) (fields : List String) (counter : ApiCounter)
    (hst : store.Pairwise fun a b => a.id < b.id) (hpos : ∀ r ∈ store, 0 < r.id) :
    (getAllRecords store p uq fields counter).records = store.filter p ∧
    (getAllRecords store p uq fields counter).records.Pairwise (fun a b => a.id < b.id) ∧
    (getAllRecords store p uq fields counter).queries.length
      = (store.filter p).length / PAGE_LIMIT + 1 ∧
    ∀ s ∈ (getAllRecords store p uq fields counter).queries, ∃ lid, s = fullQuery uq lid := by
  have hfe : (store.filter fun r => decide (0 < r.id) && p r) = store.filter p :=
    List.filter_congr fun r hr => by simp [hpos r hr]
  have hfuel : (store.filter fun r => decide (0 < r.id) && p r).length / PAGE_LIMIT + 1
      ≤ store.length + 1 := by
    have h1 : (store.filter fun r => decide (0 < r.id) && p r).length ≤ store.length :=
      List.length_filter_le _ _
    have h2 := Nat.div_le_self
      (store.filter fun r => decide (0 < r.id) && p r).length PAGE_LIMIT
    omega
  obtain ⟨h1, h2, h3⟩ := getAllRecordsAux_spec store p uq hst (store.length + 1) 0 counter hfuel
  rw [hfe] at h1 h2
  refine ⟨h1, ?_, h2, h3⟩
  have hrec : (getAllRecords store p uq fields counter).records = store.filter p := h1
  rw [hrec]
  exact hst.filter _

/-- A store of 1200 records with ids 1..1200 (no attachments). -/
def store1200 : List KRecord := (List.range' 1 1200).map fun i => ⟨i, []⟩

/-- Witness for C3: over the 1200-record store with no user filter, the
paginator returns all 1200 records and fetches exactly 3 pages. -/
theorem c3_getAllRecords_correct_witness :
    (getAllRecords store1200 (fun _ => true) "" ["$id"] (ApiCounter.mk 0 9000)).records
      = store1200 ∧
    (getAllRecords store1200 (fun _ => true) "" ["$id"] (ApiCounter.mk 0 9000)).queries.length
      = 3 := by
  have hst : store1200.Pairwise fun a b => a.id < b.id := by
    unfold store1200
    rw [List.pairwise_map]
    exact List.pairwise_lt_range' 1 1200
  have hpos : ∀ r ∈ store1200, 0 < r.id := by
    intro r hr
    unfold store1200 at hr
    rw [List.mem_map] at hr
    obtain ⟨i, hi, rfl⟩ := hr
    have := List.mem_range'_1.mp hi
    show 0 < i
    omega
  obtain ⟨h1, _, h3, _⟩ := c3_getAllRecords_correct store1200 (fun _ => true) "" ["$id"]
    (ApiCounter.mk 0 9000) hst hpos
  refine ⟨by rw [h1]; exact List.filter_true _, ?_⟩
  rw [h3, List.filter_true]
  have hlen : store1200.length = 1200 := by
    unfold store1200
    rw [List.length_map, List.length_range']
  rw [hlen]
  norm_num [PAGE_LIMIT]
